import Mathlib

/-!
Shallow embedding of the hound serving layer (Go sources: the `config`
package, the `api` package, the `oauth`/`vcs` files) and proofs about its
access control, search fan-out, update handling, git synchronization and
configuration merging.

Go maps are modelled as association lists (`List (String × _)`); Go `nil`
slices and `*bool`/`*SearchResponse` pointers are modelled as `Option`;
external process invocations (git commands) are modelled by passing in the
command's observable result; the nondeterministic completion order of the
concurrent search fan-out is modelled as the order of an input list.
-/

namespace Hound

/-! ### Executable string primitives

The Go string helpers used by the embedded code (`strings.TrimSpace`,
`strings.Split` with a one-character separator, and the scan for a
substring occurrence done by the `HEAD branch: ` regexp) are modelled by
structurally recursive functions over `List Char`, so that concrete inputs
reduce inside the kernel. -/

namespace gostr

/-- Model of `strings.TrimSpace`: drop whitespace from both ends. -/
def strTrim (s : String) : String :=
  String.mk (((s.data.dropWhile Char.isWhitespace).reverse.dropWhile
    Char.isWhitespace).reverse)

/-- Model of `strings.Split` on a one-character separator, over the
character list: splitting never yields an empty list, and an empty input
yields one empty chunk, as in Go. -/
def splitOnChar (sep : Char) : List Char → List (List Char)
  | [] => [[]]
  | c :: rest =>
    if c = sep then [] :: splitOnChar sep rest
    else
      match splitOnChar sep rest with
      | [] => [[c]]
      | chunk :: chunks => (c :: chunk) :: chunks

/-- Model of `strings.Split` on a one-character separator. -/
def strSplitOn (sep : Char) (s : String) : List String :=
  (splitOnChar sep s.data).map String.mk

/-- If `sep` starts the list, the remainder after it. -/
def stripSepFront : List Char → List Char → Option (List Char)
  | [], l => some l
  | _ :: _, [] => none
  | s :: srest, c :: crest =>
    if c = s then stripSepFront srest crest else none

/-- The remainder after the first occurrence of `marker`, if any. -/
def findMarkerRest (marker : List Char) : List Char → Option (List Char)
  | [] => stripSepFront marker []
  | c :: rest =>
    match stripSepFront marker (c :: rest) with
    | some remainder => some remainder
    | none => findMarkerRest marker rest

end gostr

/-! ### config package -/

namespace config

def defaultPushEnabled : Bool := false

def defaultPollEnabled : Bool := true

/-- Mirrors `config.Repo` (the fields the verified operations read).
`AccessKeys []string` is a Go slice, nil vs present is significant, hence
`Option (List String)`; `OAuthAuthorization *bool`, `EnablePollUpdates *bool`
and `EnablePushUpdates *bool` are nullable booleans, hence `Option Bool`. -/
structure Repo where
  AccessKeys : Option (List String)
  OAuthAuthorization : Option Bool
  Url : String
  Vcs : String
  EnablePollUpdates : Option Bool
  EnablePushUpdates : Option Bool
deriving DecidableEq

/-- Mirrors `config.optionToBool`: if a value is present, that value is
returned, otherwise the default. -/
def optionToBool (val : Option Bool) (deflt : Bool) : Bool :=
  match val with
  | none => deflt
  | some v => v

/-- Mirrors `config.iterateCompare`: linear scan for an exact string match. -/
def iterateCompare (iterator : List String) (value : String) : Bool :=
  match iterator with
  | [] => false
  | candidate :: rest =>
    if candidate = value then true else iterateCompare rest value

/-- Mirrors `Repo.CheckAccess`: if `AccessKeys` is non-nil, membership of the
key decides; else if `OAuthAuthorization` is non-nil (its boolean value is
never read), membership of the repo URL in `repoURLs` decides; else open. -/
def Repo.CheckAccess (r : Repo) (accessKey : String) (repoURLs : List String) : Bool :=
  match r.AccessKeys with
  | some keys =>
    if iterateCompare keys accessKey then true else false
  | none =>
    match r.OAuthAuthorization with
    | some _ =>
      if iterateCompare repoURLs r.Url then true else false
    | none => true

/-- Mirrors `Repo.PollUpdatesEnabled`. -/
def Repo.PollUpdatesEnabled (r : Repo) : Bool :=
  optionToBool r.EnablePollUpdates defaultPollEnabled

/-- Mirrors `Repo.PushUpdatesEnabled`. -/
def Repo.PushUpdatesEnabled (r : Repo) : Bool :=
  optionToBool r.EnablePushUpdates defaultPushEnabled

/-- Mirrors the per-repository merge loop of `config.mergeVCSConfigs`
(source lines 208-212): every global key absent from the repository-level
decoded blob is filled in, keys present at the repository level are left
unchanged. The values of Go's decoded string-keyed maps are
modelled by an arbitrary type `α` and the maps by association lists; the Go
map's arbitrary iteration order is immaterial because only lookups are
observable. An empty repository blob decodes to the empty map. -/
def fillMissingVals {α : Type} (repoVals globalVals : List (String × α)) : List (String × α) :=
  repoVals ++ globalVals.filter (fun p => (repoVals.lookup p.1).isNone)

end config

/-! ### searcher package (not under the provided sources) -/

namespace searcher

/-- Mirrors `searcher.Searcher` as seen by the api package: its bound `Repo`
and the result of its `Update()` method.

The `Update` field is modelled from the spec: the body of
`searcher.Searcher.Update` (package `searcher`) is not among the provided
sources; per the spec's SyncCoordinator contract, `Update` returns false
without error when push-based updates are disabled for the repository, and
true when the push-style update was triggered. -/
structure Searcher where
  Repo : config.Repo
  Update : Bool
deriving DecidableEq

end searcher

/-! ### api package -/

namespace api

def defaultLinesOfContext : Nat := 2

def maxLinesOfContext : Nat := 20

/-- Mirrors `index.SearchResponse` as read by `api.searchAll`: the `Matches`
slice (nil vs present is significant: a nil-`Matches` response is skipped)
and the `FilesOpened` count. The elements of `Matches` are never inspected
by the api package, so they are modelled as opaque strings. -/
structure SearchResponse where
  Matches : Option (List String)
  FilesOpened : Int
deriving DecidableEq

/-- Mirrors the private `api.searchResponse` record sent over the channel:
repo name, the searcher's response and its error. In Go `res` is a pointer
that is dereferenced only on the `err == nil` path, and the Searcher
contract makes it non-nil there; the model stores the dereferenced value. -/
structure searchResponse where
  repo : String
  res : SearchResponse
  err : Option String
deriving DecidableEq

/-- The receive loop of `api.searchAll` (lines 90-103): one iteration per
repository, in completion order. An erroneous response aborts with that
error (discarding the accumulator); a nil-`Matches` response is skipped;
otherwise the response is added to the result map and its `FilesOpened`
added to the running total. -/
def searchAllLoop (rs : List searchResponse) (res : List (String × SearchResponse)) (filesOpened : Int) : Except String (List (String × SearchResponse) × Int) :=
  match rs with
  | [] => Except.ok (res, filesOpened)
  | r :: rest =>
    match r.err with
    | some e => Except.error e
    | none =>
      match r.res.Matches with
      | none => searchAllLoop rest res filesOpened
      | some _ =>
        searchAllLoop rest (res ++ [(r.repo, r.res)]) (filesOpened + r.res.FilesOpened)

/-- Mirrors `api.searchAll`: the input list is the sequence of per-repository
search responses in channel completion order; the output is either the first
error received or the aggregated result map together with the total
files-opened count (the wall-clock duration is not modelled). -/
def searchAll (rs : List searchResponse) : Except String (List (String × SearchResponse) × Int) :=
  searchAllLoop rs [] 0

/-- The first error in completion order among the received responses. -/
def firstErr (rs : List searchResponse) : Option String :=
  match rs with
  | [] => none
  | r :: rest =>
    match r.err with
    | some e => some e
    | none => firstErr rest

/-- The successful fan-out aggregate as the spec describes it, amended to the
code's skip rule: the responses whose `Matches` is non-nil, keyed by repo. -/
def matchedEntries (rs : List searchResponse) : List (String × SearchResponse) :=
  match rs with
  | [] => []
  | r :: rest =>
    match r.res.Matches with
    | none => matchedEntries rest
    | some _ => (r.repo, r.res) :: matchedEntries rest

/-- Sum of `FilesOpened` over the responses whose `Matches` is non-nil. -/
def matchedFilesOpened (rs : List searchResponse) : Int :=
  match rs with
  | [] => 0
  | r :: rest =>
    match r.res.Matches with
    | none => matchedFilesOpened rest
    | some _ => r.res.FilesOpened + matchedFilesOpened rest

/-- Sum of `FilesOpened` over ALL responses; this is what the spec's claim
C5 literally asserts the aggregate equals ("across all searched
repositories"). -/
def allFilesOpened (rs : List searchResponse) : Int :=
  match rs with
  | [] => 0
  | r :: rest => r.res.FilesOpened + allFilesOpened rest

/-- The loop-body predicate of both branches of `api.parseAsRepoList`:
`idx[repo]` is non-nil and its repo passes `CheckAccess`. In the Go wildcard
branch `idx[repo]` is dereferenced without a nil check (registry values are
never nil); a hypothetical missing entry is filtered out here. -/
def repoAllowed (idx : List (String × searcher.Searcher)) (accessKey : String) (authRepos : List String) (repo : String) : Bool :=
  match idx.lookup repo with
  | some s => s.Repo.CheckAccess accessKey authRepos
  | none => false

/-- Mirrors `api.parseAsRepoList`. The registry `idx` (a Go map) is an
association list; `idx[repo]` is `List.lookup`. The wildcard branch iterates
the registry's keys; Go's map iteration order is modelled by the list
order. -/
def parseAsRepoList (v : String) (idx : List (String × searcher.Searcher)) (accessKey : String) (authRepos : List String) : List String :=
  let w := gostr.strTrim v
  if w = "*" then
    (idx.map Prod.fst).filter (repoAllowed idx accessKey authRepos)
  else
    (gostr.strSplitOn ',' w).filter (repoAllowed idx accessKey authRepos)

/-- Mirrors `strconv.ParseUint(sv, 10, 54)`: succeeds iff `sv` is a
non-empty string of decimal digits whose value fits in 54 bits (Go returns
a non-nil error both for a syntax error and for range overflow, and the
caller only distinguishes nil from non-nil). -/
def parseUint54 (sv : String) : Option Nat :=
  if sv.length = 0 then none
  else if sv.data.all Char.isDigit then
    let n := sv.data.foldl (fun acc c => acc * 10 + (c.toNat - 48)) 0
    if n < 2 ^ 54 then some n else none
  else none

/-- Mirrors `api.parseAsUintValue` including its quirk: the `min` bound
branch returns `max` (source line 153), not `min`. -/
def parseAsUintValue (sv : String) (min max deflt : Nat) : Nat :=
  match parseUint54 sv with
  | none => deflt
  | some iv =>
    if max ≠ 0 ∧ iv > max then max
    else if min ≠ 0 ∧ iv < min then max
    else iv

/-- The three outcomes of the `/api/v1/update` handler body after the repo
list is resolved: a not-found error, a forbidden error, or the "ok"
response. -/
inductive UpdateResponse where
  | notFound (repo : String)
  | forbidden (repo : String)
  | ok
deriving DecidableEq

/-- The loop of the `/api/v1/update` handler (api.go lines 333-351): for
each resolved repo, a nil searcher yields a not-found error, a false
`Update()` yields a forbidden error, and the loop falling through yields
"ok". -/
def updateLoop (repos : List String) (idx : List (String × searcher.Searcher)) : UpdateResponse :=
  match repos with
  | [] => UpdateResponse.ok
  | repo :: rest =>
    match idx.lookup repo with
    | none => UpdateResponse.notFound repo
    | some s =>
      if s.Update then updateLoop rest idx else UpdateResponse.forbidden repo

/-- The `/api/v1/update` handler body for a POST request (api.go lines
325-351): resolve the requested repo list through `parseAsRepoList`, then
run the update loop. -/
def updateHandler (v : String) (idx : List (String × searcher.Searcher)) (accessKey : String) (authRepos : List String) : UpdateResponse :=
  updateLoop (parseAsRepoList v idx accessKey authRepos) idx

end api

/-! ### vcs package (git driver) -/

namespace vcs

def defaultRef : String := "master"

/-- The observable outcome of one external git command: its combined
output and whether the process exited successfully. -/
structure CmdResult where
  out : String
  ok : Bool
deriving DecidableEq

/-- Mirrors `vcs.run`: logs the command's failure but returns the output
with a nil error unconditionally (source lines 163-176 end in
`return string(out), nil`). -/
def run (c : CmdResult) : String × Option String :=
  (c.out, none)

/-- Mirrors `vcs.GitDriver`'s configuration fields. -/
structure GitDriver where
  DetectRef : Bool
  Ref : String
  Username : String
  Password : String
deriving DecidableEq

/-- The branch captured by the Go regexp `HEAD branch: (?P<branch>.+)` on a
single line: the remainder of the line after the first occurrence of the
marker, provided that remainder is non-empty (`.+` needs at least one
character and `.` does not match a newline). -/
def headBranchInLine (line : String) : Option String :=
  match gostr.findMarkerRest "HEAD branch: ".data line.data with
  | none => none
  | some rest => if rest.isEmpty then none else some (String.mk rest)

/-- The leftmost match of the regexp over the whole output, scanned line by
line (the marker contains no newline and `.+` cannot cross one). -/
def findHeadBranch (lines : List String) : Option String :=
  match lines with
  | [] => none
  | l :: rest =>
    match headBranchInLine l with
    | some b => some b
    | none => findHeadBranch rest

/-- Mirrors `headBranchDetector.detectRef` (source lines 274-303): run
`git remote show origin` through `run` (whose error is always nil, so the
command-failure branch is dead — a failed command surfaces as unparseable
output), apply the regexp, and return the captured branch or "". -/
def detectRef (remoteInfo : CmdResult) : String :=
  let output := (run remoteInfo).fst
  match findHeadBranch (gostr.strSplitOn '\n' output) with
  | some b => b
  | none => ""

/-- Mirrors `GitDriver.targetRef` (source lines 203-216): a non-empty
configured `Ref` wins; else detection when `DetectRef`; an empty result
falls back to `defaultRef`. The external `git remote show origin` outcome
is passed in as `remoteInfo`. -/
def GitDriver.targetRef (g : GitDriver) (remoteInfo : CmdResult) : String :=
  let t := if g.Ref ≠ "" then g.Ref
    else if g.DetectRef then detectRef remoteInfo
    else ""
  if t = "" then defaultRef else t

/-- Mirrors `GitDriver.Pull` (source lines 178-201): run the fetch command,
return its error if non-nil; run the hard-reset command, return its error if
non-nil; otherwise return `HeadRev`. The outcomes of the two external git
commands and of the `HeadRev` call are passed in. -/
def GitDriver.Pull (g : GitDriver) (fetchRes resetRes : CmdResult) (headRev : Except String String) : Except String String :=
  match (run fetchRes).snd with
  | some e => Except.error e
  | none =>
    match (run resetRes).snd with
    | some e => Except.error e
    | none => headRev

end vcs

end Hound

/-! ## Helper lemmas -/

namespace Hound

theorem iterateCompare_iff_mem (l : List String) (v : String) :
    config.iterateCompare l v = true ↔ v ∈ l := by
  induction l with
  | nil => simp [config.iterateCompare]
  | cons c rest ih =>
    rcases eq_or_ne c v with h | h
    · subst h
      simp [config.iterateCompare]
    · simp [config.iterateCompare, h, ih, List.mem_cons, (Ne.symm h)]

theorem lookup_mem_keys {α : Type} (idx : List (String × α)) (k : String) (s : α)
    (h : idx.lookup k = some s) : k ∈ idx.map Prod.fst := by
  induction idx with
  | nil => simp [List.lookup] at h
  | cons p rest ih =>
    obtain ⟨a, b⟩ := p
    simp only [List.lookup] at h
    by_cases hk : k = a
    · simp [hk]
    · have hba : (k == a) = false := beq_false_of_ne hk
      rw [hba] at h
      simpa using Or.inr (ih h)

theorem repoAllowed_iff (idx : List (String × searcher.Searcher))
    (accessKey : String) (authRepos : List String) (k : String) :
    api.repoAllowed idx accessKey authRepos k = true ↔
      ∃ s, idx.lookup k = some s ∧ s.Repo.CheckAccess accessKey authRepos = true := by
  unfold api.repoAllowed
  cases h : idx.lookup k with
  | none => simp
  | some s => simp

theorem lookup_append_match {α : Type} (l1 l2 : List (String × α)) (k : String) :
    (l1 ++ l2).lookup k =
      match l1.lookup k with
      | some v => some v
      | none => l2.lookup k := by
  induction l1 with
  | nil => simp [List.lookup]
  | cons p rest ih =>
    obtain ⟨a, b⟩ := p
    simp only [List.cons_append, List.lookup]
    cases hk : (k == a) with
    | true => simp
    | false => simpa using ih

theorem lookup_filter_keep {α : Type} (rv gv : List (String × α)) (k : String)
    (h : rv.lookup k = none) :
    (gv.filter (fun p => (rv.lookup p.1).isNone)).lookup k = gv.lookup k := by
  induction gv with
  | nil => simp
  | cons p rest ih =>
    obtain ⟨a, b⟩ := p
    by_cases hk : k = a
    · subst hk
      have hpred : (rv.lookup ((k, b) : String × α).1).isNone = true := by simp [h]
      simp [List.filter_cons, hpred, List.lookup]
    · have hbeq : (k == a) = false := beq_false_of_ne hk
      cases hp : (rv.lookup ((a, b) : String × α).1).isNone with
      | true => simp [List.filter_cons, hp, List.lookup, hbeq, ih]
      | false => simp [List.filter_cons, hp, List.lookup, hbeq, ih]

theorem searchAllLoop_error (rs : List api.searchResponse) (e : String) :
    ∀ (acc : List (String × api.SearchResponse)) (n : Int),
      api.firstErr rs = some e → api.searchAllLoop rs acc n = Except.error e := by
  induction rs with
  | nil =>
    intro acc n h
    simp [api.firstErr] at h
  | cons r rest ih =>
    intro acc n h
    simp only [api.firstErr] at h
    cases hr : r.err with
    | some e2 =>
      rw [hr] at h
      injection h with h
      subst h
      simp [api.searchAllLoop, hr]
    | none =>
      rw [hr] at h
      cases hm : r.res.Matches with
      | none =>
        simpa [api.searchAllLoop, hr, hm] using ih _ _ h
      | some ms =>
        simpa [api.searchAllLoop, hr, hm] using ih _ _ h

theorem firstErr_isSome_of_exists (rs : List api.searchResponse)
    (h : ∃ r ∈ rs, r.err ≠ none) : ∃ e, api.firstErr rs = some e := by
  induction rs with
  | nil => simp at h
  | cons r rest ih =>
    cases hr : r.err with
    | some e => exact ⟨e, by simp [api.firstErr, hr]⟩
    | none =>
      obtain ⟨r2, hmem, hne⟩ := h
      rcases List.mem_cons.mp hmem with heq | hmem2
      · subst heq
        exact absurd hr hne
      · obtain ⟨e, he⟩ := ih ⟨r2, hmem2, hne⟩
        exact ⟨e, by simp [api.firstErr, hr, he]⟩

theorem searchAllLoop_ok (rs : List api.searchResponse) :
    ∀ (acc : List (String × api.SearchResponse)) (n : Int),
      (∀ r ∈ rs, r.err = none) →
      api.searchAllLoop rs acc n
        = Except.ok (acc ++ api.matchedEntries rs, n + api.matchedFilesOpened rs) := by
  induction rs with
  | nil =>
    intro acc n _
    simp [api.searchAllLoop, api.matchedEntries, api.matchedFilesOpened]
  | cons r rest ih =>
    intro acc n h
    have hr : r.err = none := h r (List.mem_cons_self r rest)
    have hrest : ∀ x ∈ rest, x.err = none := fun x hx => h x (List.mem_cons_of_mem r hx)
    cases hm : r.res.Matches with
    | none =>
      simp [api.searchAllLoop, api.matchedEntries, api.matchedFilesOpened, hr, hm,
        ih _ _ hrest]
    | some ms =>
      simp only [api.searchAllLoop, api.matchedEntries, api.matchedFilesOpened, hr, hm]
      rw [ih _ _ hrest]
      simp [add_assoc]

theorem headBranchInLine_ne_empty (l : String) (b : String)
    (h : vcs.headBranchInLine l = some b) : b ≠ "" := by
  unfold vcs.headBranchInLine at h
  cases hm : gostr.findMarkerRest "HEAD branch: ".data l.data with
  | none =>
    rw [hm] at h
    exact absurd h (by simp)
  | some rest =>
    rw [hm] at h
    by_cases hemp : rest.isEmpty = true
    · simp [hemp] at h
    · simp only [hemp, if_false, Bool.false_eq_true] at h
      have hb : String.mk rest = b := Option.some.inj h
      subst hb
      intro hcon
      have hnil : rest = [] := by simpa using congrArg String.data hcon
      simp [hnil] at hemp

theorem findHeadBranch_ne_empty (lines : List String) (b : String)
    (h : vcs.findHeadBranch lines = some b) : b ≠ "" := by
  induction lines with
  | nil => simp [vcs.findHeadBranch] at h
  | cons l rest ih =>
    simp only [vcs.findHeadBranch] at h
    cases hl : vcs.headBranchInLine l with
    | some b2 =>
      rw [hl] at h
      have hb : b2 = b := Option.some.inj h
      exact hb ▸ headBranchInLine_ne_empty l b2 hl
    | none =>
      rw [hl] at h
      exact ih h

/-! ## Claim theorems -/

/-- C1: `Repo.CheckAccess` is evaluated in this exact order: if the
repository declares a (non-nil) access-key list, the caller is authorized
iff `accessKey` exactly (case-sensitively) equals some member of that list —
the OAuth marker and the authorized-URL set are not consulted (the first
conjunct holds for every value of `r.OAuthAuthorization` and `repoURLs`);
else if the repository declares the OAuth marker (for either boolean
value), the caller is authorized iff the repository's URL is a member of
`repoURLs`; else the caller is always authorized. -/
theorem checkAccess_policy (r : config.Repo) (accessKey : String) (repoURLs : List String) :
    (∀ ks, r.AccessKeys = some ks →
      (r.CheckAccess accessKey repoURLs = true ↔ accessKey ∈ ks)) ∧
    (r.AccessKeys = none → ∀ b, r.OAuthAuthorization = some b →
      (r.CheckAccess accessKey repoURLs = true ↔ r.Url ∈ repoURLs)) ∧
    (r.AccessKeys = none → r.OAuthAuthorization = none →
      r.CheckAccess accessKey repoURLs = true) := by
  refine ⟨?_, ?_, ?_⟩
  · intro ks hks
    simp [config.Repo.CheckAccess, hks, iterateCompare_iff_mem]
  · intro hnone b hb
    simp [config.Repo.CheckAccess, hnone, hb, iterateCompare_iff_mem]
  · intro hnone hob
    simp [config.Repo.CheckAccess, hnone, hob]

/-- C1 witness: a repository with keys k1, k2 and an OAuth marker set to
false authorizes key k1 even with an empty authorized-URL set. -/
theorem checkAccess_policy_witness :
    (config.Repo.mk (some ["k1", "k2"]) (some false) "u" "git" none none).CheckAccess
      "k1" [] = true :=
  ((checkAccess_policy _ "k1" []).1 ["k1", "k2"] rfl).mpr (by decide)

/-- C3: `GitDriver.Pull` never propagates a failure of its fetch step or of
its hard-reset step: `run` returns a nil error unconditionally (it only logs
failures), so `Pull` returns the result of the post-attempt `HeadRev` call
for every outcome of the two git commands, successful or not. -/
theorem pull_swallows_fetch_reset_failures (g : vcs.GitDriver)
    (fetchRes resetRes : vcs.CmdResult) (headRev : Except String String) :
    g.Pull fetchRes resetRes headRev = headRev ∧
    (vcs.run fetchRes).snd = none ∧ (vcs.run resetRes).snd = none :=
  ⟨rfl, rfl, rfl⟩

/-- C10: with `enable-push-updates` absent `PushUpdatesEnabled` returns
false, with `enable-poll-updates` absent `PollUpdatesEnabled` returns true,
and an explicitly configured boolean is returned unchanged by both. -/
theorem updates_enabled_defaults (r : config.Repo) :
    (r.EnablePushUpdates = none → r.PushUpdatesEnabled = false) ∧
    (r.EnablePollUpdates = none → r.PollUpdatesEnabled = true) ∧
    (∀ b, r.EnablePushUpdates = some b → r.PushUpdatesEnabled = b) ∧
    (∀ b, r.EnablePollUpdates = some b → r.PollUpdatesEnabled = b) := by
  refine ⟨?_, ?_, ?_, ?_⟩
  · intro h
    simp [config.Repo.PushUpdatesEnabled, config.optionToBool, h, config.defaultPushEnabled]
  · intro h
    simp [config.Repo.PollUpdatesEnabled, config.optionToBool, h, config.defaultPollEnabled]
  · intro b h
    simp [config.Repo.PushUpdatesEnabled, config.optionToBool, h]
  · intro b h
    simp [config.Repo.PollUpdatesEnabled, config.optionToBool, h]

/-- C10 witness: a repository with both update fields absent has push
updates disabled. -/
theorem updates_enabled_defaults_witness :
    (config.Repo.mk none none "u" "git" none none).PushUpdatesEnabled = false :=
  (updates_enabled_defaults _).1 rfl

/-- C2: if any repository's search task reports an error, `searchAll`
returns the first error in completion order (the order of the received
list), and the result aggregate is absent — `Except.error` carries no
per-repository results, so nothing already collected is returned. -/
theorem searchAll_first_error_aborts (rs : List api.searchResponse) :
    (∀ e, api.firstErr rs = some e → api.searchAll rs = Except.error e) ∧
    ((∃ r ∈ rs, r.err ≠ none) → ∃ e, api.firstErr rs = some e) :=
  ⟨fun e h => searchAllLoop_error rs e [] 0 h, firstErr_isSome_of_exists rs⟩

/-- C2 witness: with A succeeding, then B failing with "boom", then C
succeeding, `searchAll` returns the error "boom" and discards A's already
collected result. -/
theorem searchAll_first_error_aborts_witness :
    api.searchAll
      [⟨"A", ⟨some ["mA"], 3⟩, none⟩, ⟨"B", ⟨none, 0⟩, some "boom"⟩,
        ⟨"C", ⟨some ["mC"], 5⟩, none⟩]
      = Except.error "boom" :=
  (searchAll_first_error_aborts _).1 "boom" rfl

/-- C5 counterexample: a fan-out of one repository whose search succeeds,
opened 5 files but produced no matches (nil `Matches`): `searchAll` reports
a total of 0 files opened, while the sum of `FilesOpened` across all
searched repositories is 5. -/
theorem searchAll_filesOpened_counterexample :
    api.searchAll [⟨"A", ⟨none, 5⟩, none⟩] = Except.ok ([], 0) ∧
    api.allFilesOpened [⟨"A", ⟨none, 5⟩, none⟩] = 5 ∧ (0 : Int) ≠ 5 :=
  ⟨rfl, rfl, by decide⟩

/-- C5 (amended): for every fan-out in which all repository searches
succeed, the aggregate map contains exactly the repositories whose result
has a non-nil `Matches` (no-match repositories are omitted), and the
aggregate `FilesOpened` equals the sum of the individual counts across
those repositories with matches (responses with nil `Matches` are skipped
before their count is added). -/
theorem searchAll_success_aggregate (rs : List api.searchResponse)
    (h : ∀ r ∈ rs, r.err = none) :
    api.searchAll rs
      = Except.ok (api.matchedEntries rs, api.matchedFilesOpened rs) := by
  simpa [api.searchAll] using searchAllLoop_ok rs [] 0 h

/-- C5 witness: A opening 3 files and C opening 5 files, both with matches,
yield an aggregate of 8 files opened and both entries in the map. -/
theorem searchAll_success_aggregate_witness :
    api.searchAll [⟨"A", ⟨some ["mA"], 3⟩, none⟩, ⟨"C", ⟨some ["mC"], 5⟩, none⟩]
      = Except.ok ([("A", ⟨some ["mA"], 3⟩), ("C", ⟨some ["mC"], 5⟩)], 8) := by
  rw [searchAll_success_aggregate
    [⟨"A", ⟨some ["mA"], 3⟩, none⟩, ⟨"C", ⟨some ["mC"], 5⟩, none⟩] (by decide)]
  rfl

/-- C6: the git target ref resolves in this priority: a non-empty
configured `Ref` wins unconditionally; otherwise, with ref detection
enabled, the branch captured from a "HEAD branch: name" line of the remote
metadata is used; when detection finds no such line (which is also how a
failed command surfaces, since `run` swallows its error), resolution falls
through to the fallback "master", which is likewise used when detection is
disabled. The final conjunct is the spec's concrete detection example. -/
theorem targetRef_resolution :
    (∀ (g : vcs.GitDriver) (rem : vcs.CmdResult),
      g.Ref ≠ "" → g.targetRef rem = g.Ref) ∧
    (∀ (u p : String) (rem : vcs.CmdResult) (b : String),
      vcs.findHeadBranch (gostr.strSplitOn '\n' rem.out) = some b →
      (vcs.GitDriver.mk true "" u p).targetRef rem = b) ∧
    (∀ (u p : String) (rem : vcs.CmdResult),
      vcs.findHeadBranch (gostr.strSplitOn '\n' rem.out) = none →
      (vcs.GitDriver.mk true "" u p).targetRef rem = vcs.defaultRef) ∧
    (∀ (u p : String) (rem : vcs.CmdResult),
      (vcs.GitDriver.mk false "" u p).targetRef rem = vcs.defaultRef) ∧
    (vcs.GitDriver.mk true "" "" "").targetRef ⟨"HEAD branch: main\n", true⟩ = "main" := by
  refine ⟨?_, ?_, ?_, ?_, by decide⟩
  · intro g rem h
    simp [vcs.GitDriver.targetRef, h]
  · intro u p rem b hfb
    have hb : b ≠ "" := findHeadBranch_ne_empty _ b hfb
    simp [vcs.GitDriver.targetRef, vcs.detectRef, vcs.run, hfb, hb]
  · intro u p rem hfb
    simp [vcs.GitDriver.targetRef, vcs.detectRef, vcs.run, hfb]
  · intro u p rem
    simp [vcs.GitDriver.targetRef]

/-- C6 witness: an explicit ref "develop" wins although the remote reports
"HEAD branch: main" with detection enabled. -/
theorem targetRef_resolution_witness :
    (vcs.GitDriver.mk true "develop" "" "").targetRef ⟨"HEAD branch: main\n", true⟩
      = "develop" :=
  targetRef_resolution.1 _ _ (by decide)

/-- C7: `parseAsRepoList` on the wildcard "*" returns exactly the registry
names whose `CheckAccess` passes; on any other spec it returns exactly the
comma-separated names that are known to the registry and pass `CheckAccess`,
unknown names being silently dropped (the function is total — there is no
error to report). -/
theorem parseAsRepoList_resolution (idx : List (String × searcher.Searcher))
    (accessKey : String) (authRepos : List String) :
    (∀ v : String, gostr.strTrim v = "*" → ∀ name,
      name ∈ api.parseAsRepoList v idx accessKey authRepos ↔
        ∃ s, idx.lookup name = some s ∧ s.Repo.CheckAccess accessKey authRepos = true) ∧
    (∀ v : String, gostr.strTrim v ≠ "*" → ∀ name,
      name ∈ api.parseAsRepoList v idx accessKey authRepos ↔
        name ∈ gostr.strSplitOn ',' (gostr.strTrim v) ∧
          ∃ s, idx.lookup name = some s ∧ s.Repo.CheckAccess accessKey authRepos = true) := by
  constructor
  · intro v hv name
    have hunfold : api.parseAsRepoList v idx accessKey authRepos
        = (idx.map Prod.fst).filter (api.repoAllowed idx accessKey authRepos) := by
      simp [api.parseAsRepoList, hv]
    rw [hunfold, List.mem_filter, repoAllowed_iff]
    constructor
    · exact fun hpair => hpair.2
    · intro hex
      obtain ⟨s, hs, hc⟩ := hex
      exact ⟨lookup_mem_keys idx name s hs, s, hs, hc⟩
  · intro v hv name
    have hunfold : api.parseAsRepoList v idx accessKey authRepos
        = (gostr.strSplitOn ',' (gostr.strTrim v)).filter (api.repoAllowed idx accessKey authRepos) := by
      simp [api.parseAsRepoList, hv]
    rw [hunfold, List.mem_filter, repoAllowed_iff]

/-- C7 witness: the list "foo,bar,nonexistent" against a registry knowing
only an open repository "foo" resolves to contain "foo". -/
theorem parseAsRepoList_resolution_witness :
    "foo" ∈ api.parseAsRepoList "foo,bar,nonexistent"
      [("foo", ⟨⟨none, none, "urlF", "git", none, none⟩, true⟩)] "" [] :=
  ((parseAsRepoList_resolution _ "" []).2 "foo,bar,nonexistent" (by decide) "foo").mpr
    ⟨by decide, ⟨⟨none, none, "urlF", "git", none, none⟩, true⟩, rfl, rfl⟩

/-- C8: the merge of a global per-VCS default blob into a repository's
VCS-config blob fills in exactly the top-level keys absent from the
repository blob: looking up any key in the merged blob yields the
repository-level value when the key is present there and otherwise the
global value. The second conjunct is the spec's concrete example. -/
theorem fillMissingVals_spec :
    (∀ (α : Type) (repoVals globalVals : List (String × α)) (k : String),
      (config.fillMissingVals repoVals globalVals).lookup k =
        match repoVals.lookup k with
        | some v => some v
        | none => globalVals.lookup k) ∧
    config.fillMissingVals [("depth", (1 : Int))] [("depth", 5), ("timeout", 30)]
      = [("depth", 1), ("timeout", 30)] := by
  constructor
  · intro α repoVals globalVals k
    rw [config.fillMissingVals, lookup_append_match]
    cases h : repoVals.lookup k with
    | some v => rfl
    | none => exact lookup_filter_keep repoVals globalVals k h
  · rfl

/-- C9: the context-lines parameter, parsed with the search handler's
arguments (lower bound 0, upper bound 20, default 2), always lands in
[0, 20], yields the default on any parse failure, and realizes the spec's
examples: "100" clamps to 20, "abc" defaults to 2, "0" stays 0. -/
theorem contextLines_clamped :
    (∀ sv, api.parseAsUintValue sv 0 api.maxLinesOfContext api.defaultLinesOfContext ≤ 20) ∧
    (∀ sv, api.parseUint54 sv = none →
      api.parseAsUintValue sv 0 api.maxLinesOfContext api.defaultLinesOfContext
        = api.defaultLinesOfContext) ∧
    api.parseAsUintValue "100" 0 api.maxLinesOfContext api.defaultLinesOfContext = 20 ∧
    api.parseAsUintValue "abc" 0 api.maxLinesOfContext api.defaultLinesOfContext = 2 ∧
    api.parseAsUintValue "0" 0 api.maxLinesOfContext api.defaultLinesOfContext = 0 := by
  refine ⟨?_, ?_, by decide, by decide, by decide⟩
  · intro sv
    unfold api.parseAsUintValue api.maxLinesOfContext api.defaultLinesOfContext
    cases h : api.parseUint54 sv with
    | none => simp
    | some iv =>
      by_cases hgt : iv > 20
      · simp [hgt]
      · simp [hgt]
        omega
  · intro sv h
    unfold api.parseAsUintValue
    rw [h]

/-- C9 witness: the unparsable input "abc" yields the default. -/
theorem contextLines_clamped_witness :
    api.parseAsUintValue "abc" 0 api.maxLinesOfContext api.defaultLinesOfContext
      = api.defaultLinesOfContext :=
  contextLines_clamped.2.1 "abc" (by decide)

/-- C4: evaluation of the `/api/v1/update` handler at the failing input.
A POST naming only the unknown repository "ghost" against a registry
holding one push-enabled repository "a" responds "ok": `parseAsRepoList`
silently drops the unknown name before the loop, so the handler's
not-found branch (the first conjunct's registry really does not know
"ghost", second conjunct) is unreachable and the request is not failed.
The remaining conjuncts show the rest of the claim's behavior: a known
repository whose `Update()` returns false yields the forbidden-class
error, and a known push-enabled repository yields "ok". -/
theorem update_unknown_repo_silently_ok :
    api.updateHandler "ghost"
      [("a", ⟨⟨none, none, "urlA", "git", none, some true⟩, true⟩)] "" []
      = api.UpdateResponse.ok ∧
    ([("a", (⟨⟨none, none, "urlA", "git", none, some true⟩, true⟩ : searcher.Searcher))].lookup
      "ghost" = none) ∧
    api.updateHandler "b"
      [("b", ⟨⟨none, none, "urlB", "git", none, some false⟩, false⟩)] "" []
      = api.UpdateResponse.forbidden "b" ∧
    api.updateHandler "a"
      [("a", ⟨⟨none, none, "urlA", "git", none, some true⟩, true⟩)] "" []
      = api.UpdateResponse.ok := by
  refine ⟨by decide, rfl, by decide, by decide⟩

end Hound

